import Mathlib

/-!
# Verification of the Ride-Sharing ride-matching core

Shallow embedding of the repository's algorithmic core
(`src/algorithms/astar.ts`, `src/algorithms/recommendations.ts`,
`src/services/rideService.ts`) and proofs about it.

JavaScript numbers are modelled as exact real numbers; where the source can
produce the IEEE special values `NaN` / `Infinity` through division by zero,
the computation is carried out in `JNum`, an extension of `ℝ` with those
special values and JavaScript's propagation rules.  Ambient effects
(`new Date()`), which the source reads implicitly, are passed as explicit
arguments.  Mutation of a caller-supplied object (a single `push` in
`updateUserProfile`) is modelled by returning the post-call value of the
argument alongside the function's result.
-/

noncomputable section

open Classical

/-- `{lat, lng}` coordinate pair, from `astar.ts`. -/
@[ext]
structure Location where
  lat : ℝ
  lng : ℝ
deriving DecidableEq

/-- Time-of-day buckets used by `getTimeOfDay` in both
`recommendations.ts` and `rideService.ts`. -/
inductive TimeOfDay where
  | morning | afternoon | evening | night
deriving DecidableEq

/-- Conversation-style preference values. -/
inductive ConversationLevel where
  | quiet | moderate | chatty
deriving DecidableEq

/-- `RideHistory` entry from `recommendations.ts`.  The `Date` timestamp is
modelled as a real number (it is never inspected by the algorithms). -/
structure RideHistory where
  pickup : Location
  dropoff : Location
  timestamp : ℝ
  price : ℝ
  vehicleType : String
  rating : ℝ
  timeOfDay : TimeOfDay
  dayOfWeek : ℕ

/-- `UserPreferences` from `recommendations.ts`. -/
structure UserPreferences where
  preferredVehicleTypes : List String
  maxPrice : ℝ
  preferredDriverRatings : ℝ
  smokingPreference : Bool
  musicPreference : Bool
  conversationPreference : ConversationLevel

/-- `UserProfile` from `recommendations.ts`. -/
structure UserProfile where
  id : String
  rideHistory : List RideHistory
  preferences : UserPreferences
  ratings : List ℝ
  frequentLocations : List Location

/-- Driver cabin preferences. -/
structure DriverPreferences where
  smokingAllowed : Bool
  musicPlaying : Bool
  conversationLevel : ConversationLevel

/-- `Driver` from `recommendations.ts`. -/
structure Driver where
  id : String
  rating : ℝ
  totalRides : ℝ
  vehicleType : String
  preferences : DriverPreferences
  rideHistory : List RideHistory

/-- `Ride` as consumed by the recommendation pipeline
(`recommendations.ts`). -/
structure Ride where
  id : String
  driver : Driver
  pickup_lat : ℝ
  pickup_lng : ℝ
  dropoff_lat : ℝ
  dropoff_lng : ℝ
  price : ℝ
  vehicle_type : String
  distance_km : ℝ
  estimated_duration_min : ℝ

/-! ## Geo math (`astar.ts`) -/

/-- `toRadians` from `astar.ts`. -/
def toRadians (degrees : ℝ) : ℝ := degrees * (Real.pi / 180)

/-- JavaScript's `Math.atan2`, restricted to the branches reachable from
finite arguments. -/
def atan2 (y x : ℝ) : ℝ :=
  if 0 < x then Real.arctan (y / x)
  else if x < 0 then
    (if 0 ≤ y then Real.arctan (y / x) + Real.pi else Real.arctan (y / x) - Real.pi)
  else
    (if 0 < y then Real.pi / 2 else if y < 0 then -(Real.pi / 2) else 0)

/-- `haversineDistance` from `astar.ts` (Earth radius 6371 km,
`atan2`/`sqrt` form). -/
def haversineDist (loc1 loc2 : Location) : ℝ :=
  let dLat := toRadians (loc2.lat - loc1.lat)
  let dLng := toRadians (loc2.lng - loc1.lng)
  let a := Real.sin (dLat / 2) * Real.sin (dLat / 2) +
      Real.cos (toRadians loc1.lat) * Real.cos (toRadians loc2.lat) *
      Real.sin (dLng / 2) * Real.sin (dLng / 2)
  let c := 2 * atan2 (Real.sqrt a) (Real.sqrt (1 - a))
  6371 * c

theorem atan2_zero_one : atan2 0 1 = 0 := by
  unfold atan2
  norm_num

/-- The haversine distance of a point to itself is zero. -/
theorem haversineDist_self (p : Location) : haversineDist p p = 0 := by
  simp [haversineDist, toRadians, atan2_zero_one]

/-- On a meridian (equal longitudes) the haversine formula collapses to
arc length: for `0 ≤ d ≤ 1` degrees of latitude difference the distance is
`6371 * (d * π/180)` km. -/
theorem haversineDist_meridian (lat lng d : ℝ) (h0 : 0 ≤ d) (h1 : d ≤ 1) :
    haversineDist ⟨lat, lng⟩ ⟨lat + d, lng⟩ = 6371 * (d * (Real.pi / 180)) := by
  have hpi : (3.14 : ℝ) < Real.pi := by
    have := Real.pi_gt_d2
    linarith
  have hpi' : Real.pi < 3.15 := by
    have := Real.pi_lt_d2
    linarith
  have hx0 : 0 ≤ toRadians d / 2 := by
    have : 0 ≤ toRadians d := by
      unfold toRadians
      positivity
    linarith
  have hxlt : toRadians d / 2 < Real.pi / 2 := by
    unfold toRadians
    nlinarith
  have hsin : 0 ≤ Real.sin (toRadians d / 2) :=
    Real.sin_nonneg_of_nonneg_of_le_pi hx0 (by linarith)
  have hcos : 0 < Real.cos (toRadians d / 2) :=
    Real.cos_pos_of_mem_Ioo ⟨by linarith, hxlt⟩
  unfold haversineDist
  simp only [add_sub_cancel_left, sub_self]
  have hzero : toRadians 0 = 0 := by simp [toRadians]
  rw [hzero]
  simp only [zero_div, Real.sin_zero, mul_zero, add_zero]
  set x := toRadians d / 2 with hxdef
  have h1s : 1 - Real.sin x * Real.sin x = Real.cos x ^ 2 := by
    have := Real.sin_sq_add_cos_sq x
    nlinarith
  have hs2 : Real.sin x * Real.sin x = Real.sin x ^ 2 := by ring
  rw [h1s, Real.sqrt_sq hcos.le, hs2, Real.sqrt_sq hsin]
  have hat : atan2 (Real.sin x) (Real.cos x) = x := by
    unfold atan2
    rw [if_pos hcos]
    rw [← Real.tan_eq_sin_div_cos, Real.arctan_tan (by linarith) hxlt]
  rw [hat]
  unfold toRadians at hxdef
  rw [hxdef]
  ring

/-- `getTimeOfDay` from `recommendations.ts` / `rideService.ts`. -/
def getTimeOfDay (hour : ℕ) : TimeOfDay :=
  if 5 ≤ hour ∧ hour < 12 then .morning
  else if 12 ≤ hour ∧ hour < 17 then .afternoon
  else if 17 ≤ hour ∧ hour < 22 then .evening
  else .night

/-! ## JavaScript number model

`JNum` is `ℝ` extended with the IEEE special values that the source can
produce (`NaN`, `Infinity`, `-Infinity`), with JavaScript's propagation
rules for the operations the recommendation module uses.  Finite doubles
are represented by exact reals. -/

/-- A JavaScript number: a finite value, `NaN`, `Infinity` or
`-Infinity`. -/
inductive JNum where
  | fin (x : ℝ)
  | nan
  | inf
  | ninf

namespace JNum

/-- JavaScript `+`. -/
def add : JNum → JNum → JNum
  | nan, _ => nan
  | _, nan => nan
  | fin x, fin y => fin (x + y)
  | inf, ninf => nan
  | ninf, inf => nan
  | inf, _ => inf
  | _, inf => inf
  | ninf, _ => ninf
  | _, ninf => ninf

/-- JavaScript unary minus. -/
def neg : JNum → JNum
  | fin x => fin (-x)
  | nan => nan
  | inf => ninf
  | ninf => inf

/-- JavaScript `-`. -/
def sub (a b : JNum) : JNum := add a (neg b)

/-- JavaScript `*`. -/
def mul : JNum → JNum → JNum
  | nan, _ => nan
  | _, nan => nan
  | fin x, fin y => fin (x * y)
  | inf, fin x => if x = 0 then nan else if 0 < x then inf else ninf
  | fin x, inf => if x = 0 then nan else if 0 < x then inf else ninf
  | ninf, fin x => if x = 0 then nan else if 0 < x then ninf else inf
  | fin x, ninf => if x = 0 then nan else if 0 < x then ninf else inf
  | inf, inf => inf
  | ninf, ninf => inf
  | inf, ninf => ninf
  | ninf, inf => ninf

/-- JavaScript `/` (positive zero only; the source never produces a
negative-zero divisor). -/
def div : JNum → JNum → JNum
  | nan, _ => nan
  | _, nan => nan
  | fin x, fin y =>
      if y = 0 then (if x = 0 then nan else if 0 < x then inf else ninf)
      else fin (x / y)
  | fin _, inf => fin 0
  | fin _, ninf => fin 0
  | inf, fin y => if 0 ≤ y then inf else ninf
  | ninf, fin y => if 0 ≤ y then ninf else inf
  | inf, _ => nan
  | ninf, _ => nan

/-- JavaScript `Math.abs`. -/
def jabs : JNum → JNum
  | fin x => fin |x|
  | nan => nan
  | inf => inf
  | ninf => inf

/-- JavaScript `Math.max` (two arguments): `NaN` if either argument is
`NaN`. -/
def jmax : JNum → JNum → JNum
  | nan, _ => nan
  | _, nan => nan
  | inf, _ => inf
  | _, inf => inf
  | ninf, y => y
  | x, ninf => x
  | fin x, fin y => fin (max x y)

/-- JavaScript `Math.min` (two arguments): `NaN` if either argument is
`NaN`. -/
def jmin : JNum → JNum → JNum
  | nan, _ => nan
  | _, nan => nan
  | ninf, _ => ninf
  | _, ninf => ninf
  | inf, y => y
  | x, inf => x
  | fin x, fin y => fin (min x y)

/-- JavaScript `<` as a boolean: every comparison with `NaN` is false. -/
def blt : JNum → JNum → Bool
  | nan, _ => false
  | _, nan => false
  | fin x, fin y => decide (x < y)
  | fin _, inf => true
  | ninf, fin _ => true
  | ninf, inf => true
  | _, _ => false

/-- JavaScript `<=` as a boolean: every comparison with `NaN` is false. -/
def ble : JNum → JNum → Bool
  | nan, _ => false
  | _, nan => false
  | fin x, fin y => decide (x ≤ y)
  | fin _, inf => true
  | ninf, _ => true
  | inf, inf => true
  | _, _ => false

/-- JavaScript `x || 0` on a number: `NaN` (and `0`) are falsy and yield
`0`; everything else passes through. -/
def orZero : JNum → JNum
  | nan => fin 0
  | v => v

instance : Add JNum := ⟨add⟩
instance : Sub JNum := ⟨sub⟩
instance : Mul JNum := ⟨mul⟩
instance : Div JNum := ⟨div⟩

@[simp] theorem fin_add_fin (x y : ℝ) : fin x + fin y = fin (x + y) := rfl

@[simp] theorem fin_sub_fin (x y : ℝ) : fin x - fin y = fin (x - y) := by
  show sub (fin x) (fin y) = fin (x - y)
  simp [sub, add, neg, sub_eq_add_neg]

@[simp] theorem fin_mul_fin (x y : ℝ) : fin x * fin y = fin (x * y) := rfl

@[simp] theorem nan_add (a : JNum) : nan + a = nan := by
  show add nan a = nan
  cases a <;> rfl

@[simp] theorem add_nan (a : JNum) : a + nan = nan := by
  show add a nan = nan
  cases a <;> rfl

@[simp] theorem nan_mul (a : JNum) : nan * a = nan := by
  show mul nan a = nan
  cases a <;> rfl

@[simp] theorem mul_nan (a : JNum) : a * nan = nan := by
  show mul a nan = nan
  cases a <;> rfl

@[simp] theorem nan_sub (a : JNum) : nan - a = nan := by
  show sub nan a = nan
  cases a <;> rfl

@[simp] theorem sub_nan (a : JNum) : a - nan = nan := by
  show sub a nan = nan
  cases a <;> rfl

@[simp] theorem fin_div_fin_ne (x y : ℝ) (h : y ≠ 0) :
    fin x / fin y = fin (x / y) := by
  show div (fin x) (fin y) = fin (x / y)
  simp [div, h]

@[simp] theorem fin_div_zero_zero : fin 0 / fin 0 = nan := by
  show div (fin 0) (fin 0) = nan
  simp [div]

theorem fin_div_zero_pos (x : ℝ) (h : 0 < x) : fin x / fin 0 = inf := by
  show div (fin x) (fin 0) = inf
  simp [div, h, h.ne']

@[simp] theorem jmax_nan (a : JNum) : jmax a nan = nan := by
  cases a <;> rfl

@[simp] theorem nan_jmax (a : JNum) : jmax nan a = nan := by
  cases a <;> rfl

@[simp] theorem jmin_nan (a : JNum) : jmin a nan = nan := by
  cases a <;> rfl

@[simp] theorem nan_jmin (a : JNum) : jmin nan a = nan := by
  cases a <;> rfl

@[simp] theorem jmax_fin_fin (x y : ℝ) : jmax (fin x) (fin y) = fin (max x y) := rfl

@[simp] theorem jmin_fin_fin (x y : ℝ) : jmin (fin x) (fin y) = fin (min x y) := rfl

@[simp] theorem jabs_fin (x : ℝ) : jabs (fin x) = fin |x| := rfl

@[simp] theorem jabs_nan : jabs nan = nan := rfl

@[simp] theorem blt_fin_fin (x y : ℝ) : blt (fin x) (fin y) = decide (x < y) := rfl

@[simp] theorem ble_fin_fin (x y : ℝ) : ble (fin x) (fin y) = decide (x ≤ y) := rfl

@[simp] theorem blt_fin_nan (x : ℝ) : blt (fin x) nan = false := rfl

@[simp] theorem blt_nan (a : JNum) : blt nan a = false := by
  cases a <;> rfl

@[simp] theorem orZero_fin (x : ℝ) : orZero (fin x) = fin x := rfl

@[simp] theorem orZero_nan : orZero nan = fin 0 := rfl

@[simp] theorem fin_mul_nan_right (x : ℝ) : fin x * nan = nan := rfl

@[simp] theorem sub_fin_nan (x : ℝ) : fin x - nan = nan := rfl

@[simp] theorem jmin_fin_nan (x : ℝ) : jmin (fin x) nan = nan := rfl

@[simp] theorem jmax_fin_nan (x : ℝ) : jmax (fin x) nan = nan := rfl

@[simp] theorem div_nan (a : JNum) : a / nan = nan := by
  show div a nan = nan
  cases a <;> rfl

@[simp] theorem nan_div (a : JNum) : nan / a = nan := by
  show div nan a = nan
  cases a <;> rfl

end JNum

open JNum

/-! ## Recommendation pipeline (`recommendations.ts`) -/

/-- `deductiveFiltering`'s per-ride predicate: the five early-return rules,
in source order.  Returns `true` when the ride is kept. -/
def deductiveKeep (userProfile : UserProfile) (userLocation : Location)
    (ride : Ride) : Bool :=
  if ride.price > userProfile.preferences.maxPrice then false
  else if ride.driver.rating < userProfile.preferences.preferredDriverRatings then false
  else if userProfile.preferences.preferredVehicleTypes.length > 0 ∧
      ¬ userProfile.preferences.preferredVehicleTypes.contains ride.vehicle_type then false
  else if userProfile.preferences.smokingPreference ≠
      ride.driver.preferences.smokingAllowed then false
  else if haversineDist userLocation ⟨ride.pickup_lat, ride.pickup_lng⟩ > 5 then false
  else true

/-- `deductiveFiltering` from `recommendations.ts`.  The `destination`
argument is accepted but unused, as in the source. -/
def deductiveFiltering (rides : List Ride) (userProfile : UserProfile)
    (userLocation : Location) (_destination : Location) : List Ride :=
  rides.filter (deductiveKeep userProfile userLocation)

/-- `calculateRouteSimilarity` from `recommendations.ts`.  The
`reduce(...)/length || 0` guard is `JNum.orZero`. -/
def calculateRouteSimilarity (pickup dropoff : Location)
    (history : List RideHistory) : JNum :=
  if history.length = 0 then fin 0
  else
    let similarRoutes := history.filter (fun ride =>
      decide (haversineDist pickup ride.pickup < 1 ∧
        haversineDist dropoff ride.dropoff < 1))
    let avgRating := orZero
      (fin (similarRoutes.foldl (fun sum r => sum + r.rating) 0) /
        fin similarRoutes.length)
    (fin similarRoutes.length / fin history.length) * (avgRating / fin 5)

/-- `calculateTimePreference` from `recommendations.ts`.  The current hour
(read from `new Date()` in the source) is an explicit argument. -/
def calculateTimePreference (currentHour : ℕ) (vehicleType : String)
    (history : List RideHistory) : JNum :=
  let timeOfDay := getTimeOfDay currentHour
  let relevantRides := history.filter (fun h =>
    decide (h.timeOfDay = timeOfDay ∧ h.vehicleType = vehicleType))
  if relevantRides.length = 0 then fin 0.5
  else
    let avgRating := fin (relevantRides.foldl (fun sum r => sum + r.rating) 0) /
      fin relevantRides.length
    avgRating / fin 5

/-- `inferPriceSensitivity` from `recommendations.ts`. -/
def inferPriceSensitivity (price : ℝ) (history : List RideHistory) : JNum :=
  if history.length = 0 then fin 0.5
  else
    let avgPrice := fin (history.foldl (fun sum h => sum + h.price) 0) /
      fin history.length
    let priceDiff := jabs (fin price - avgPrice) / avgPrice
    jmax (fin 0) (fin 1 - priceDiff)

/-- `predictDriverCompatibility` from `recommendations.ts`. -/
def predictDriverCompatibility (driver : Driver) (userProfile : UserProfile) : JNum :=
  let s1 := fin 0 + (fin driver.rating / fin 5) * fin 40
  let experienceScore := jmin (fin 1) (fin driver.totalRides / fin 100) * fin 30
  let s2 := s1 + experienceScore
  if driver.preferences.conversationLevel =
      userProfile.preferences.conversationPreference then s2 + fin 30
  else s2 + fin 15

/-- `calculateProximityPreference` from `recommendations.ts`. -/
def calculateProximityPreference (currentLocation pickupLocation : Location)
    (history : List RideHistory) : JNum :=
  let distance := haversineDist currentLocation pickupLocation
  if history.length = 0 then jmax (fin 0) (fin 1 - fin distance / fin 5)
  else
    let avgPickupDistance :=
      fin (history.foldl (fun sum h => sum + haversineDist h.pickup currentLocation) 0) /
        fin history.length
    let similarityToHistory := fin 1 - jabs (fin distance - avgPickupDistance) / fin 5
    jmax (fin 0) similarityToHistory

/-- `inductiveScoring` from `recommendations.ts`: weighted sum of the five
pattern scores, clamped by `Math.min(100, Math.max(0, score))`.  The current
hour is an explicit argument. -/
def inductiveScoring (ride : Ride) (userProfile : UserProfile)
    (userLocation : Location) (_destination : Location) (currentHour : ℕ) : JNum :=
  let routeSimilarityScore := calculateRouteSimilarity
    ⟨ride.pickup_lat, ride.pickup_lng⟩ ⟨ride.dropoff_lat, ride.dropoff_lng⟩
    userProfile.rideHistory
  let timePreferenceScore := calculateTimePreference currentHour ride.vehicle_type
    userProfile.rideHistory
  let pricePattern := inferPriceSensitivity ride.price userProfile.rideHistory
  let driverCompatibilityScore := predictDriverCompatibility ride.driver userProfile
  let proximityScore := calculateProximityPreference userLocation
    ⟨ride.pickup_lat, ride.pickup_lng⟩ userProfile.rideHistory
  let score := fin 0 + routeSimilarityScore * fin 30 + timePreferenceScore * fin 20 +
    pricePattern * fin 15 + driverCompatibilityScore * fin 25 + proximityScore * fin 10
  jmin (fin 100) (jmax (fin 0) score)

/-- `calculateUserSimilarity` from `recommendations.ts`. -/
def calculateUserSimilarity (user1 user2 : UserProfile) : JNum :=
  let commonVehicles := (user1.preferences.preferredVehicleTypes.filter (fun v =>
    user2.preferences.preferredVehicleTypes.contains v)).length
  let s1 := fin 0 + (fin commonVehicles /
    fin (max user1.preferences.preferredVehicleTypes.length 1)) * fin 0.3
  let priceDiff := |user1.preferences.maxPrice - user2.preferences.maxPrice|
  let s2 := s1 + jmax (fin 0) (fin 1 - fin priceDiff / fin user1.preferences.maxPrice) * fin 0.3
  let s3 := if user1.preferences.smokingPreference = user2.preferences.smokingPreference
    then s2 + fin 0.2 else s2
  if user1.preferences.conversationPreference = user2.preferences.conversationPreference
    then s3 + fin 0.2 else s3

/-- A peer together with its similarity, as produced by
`findSimilarUsers`. -/
structure SimilarUser where
  user : UserProfile
  similarity : JNum

/-- `findSimilarUsers` from `recommendations.ts`: peers with a different
id and non-empty history, mapped to their similarity, kept when the
similarity exceeds 0.5, sorted descending by similarity and truncated to
the top 10. -/
def findSimilarUsers (userProfile : UserProfile) (allUsers : List UserProfile) :
    List SimilarUser :=
  ((((allUsers.filter (fun u =>
        decide (u.id ≠ userProfile.id ∧ u.rideHistory.length > 0))).map
      (fun user => SimilarUser.mk user (calculateUserSimilarity userProfile user))).filter
    (fun su => blt (fin 0.5) su.similarity)).mergeSort
    (fun a b => ble b.similarity a.similarity)).take 10

/-- `collaborativeFiltering` from `recommendations.ts`: 50 when no similar
user exists, otherwise the similarity-weighted like-fraction average
(guarded by `weightSum > 0`). -/
def collaborativeFiltering (ride : Ride) (userProfile : UserProfile)
    (allUsers : List UserProfile) : JNum :=
  let similarUsers := findSimilarUsers userProfile allUsers
  if similarUsers.length = 0 then fin 50
  else
    let acc := similarUsers.foldl (fun (acc : JNum × JNum) su =>
      let userLikedSimilarRides := (su.user.rideHistory.filter (fun history =>
        decide (history.vehicleType = ride.vehicle_type ∧ history.rating ≥ 4 ∧
          |history.price - ride.price| < ride.price * 0.2))).length
      let likeScore := (fin userLikedSimilarRides / fin su.user.rideHistory.length) * fin 100
      (acc.1 + likeScore * su.similarity, acc.2 + su.similarity)) (fin 0, fin 0)
    if blt (fin 0) acc.2 then acc.1 / acc.2 else fin 50

/-- `contentBasedFiltering` from `recommendations.ts`: 50 on empty history,
otherwise the four weighted content scores (the rating-alignment term
divides by `ratings.length` with no emptiness guard). -/
def contentBasedFiltering (ride : Ride) (userProfile : UserProfile) : JNum :=
  if userProfile.rideHistory.length = 0 then fin 50
  else
    let vehicleTypeMatches := (userProfile.rideHistory.filter (fun h =>
      decide (h.vehicleType = ride.vehicle_type ∧ h.rating ≥ 4))).length
    let s1 := fin 0 + (fin vehicleTypeMatches / fin userProfile.rideHistory.length) *
      fin 100 * fin 0.3
    let avgPrice := fin (userProfile.rideHistory.foldl (fun sum h => sum + h.price) 0) /
      fin userProfile.rideHistory.length
    let priceDiff := jabs (fin ride.price - avgPrice) / avgPrice
    let s2 := s1 + jmax (fin 0) ((fin 1 - priceDiff) * fin 100) * fin 0.25
    let avgDistance := fin (userProfile.rideHistory.foldl
        (fun sum h => sum + haversineDist h.pickup h.dropoff) 0) /
      fin userProfile.rideHistory.length
    let distDiff := jabs (fin ride.distance_km - avgDistance) / avgDistance
    let s3 := s2 + jmax (fin 0) ((fin 1 - distDiff) * fin 100) * fin 0.2
    let avgPreferredRating := fin (userProfile.ratings.foldl (fun a b => a + b) 0) /
      fin userProfile.ratings.length
    let ratingAlignment := (fin ride.driver.rating / avgPreferredRating) * fin 100
    let s4 := s3 + jmin (fin 100) ratingAlignment * fin 0.25
    jmin (fin 100) s4

/-- A scored recommendation (`Ride & {recommendationScore, reasoning}`).
The human-readable `reasoning` strings are presentation-only number
formatting and are not modelled. -/
structure RecommendationResult where
  ride : Ride
  recommendationScore : JNum

/-- `hybridRecommendation` from `recommendations.ts`: deductive filter,
then per-ride hybrid score `inductive*0.4 + content*0.35 + collab*0.25`
(collaborative only when `allUsers` is supplied and non-empty, else the
neutral 50), sorted descending by score. -/
def hybridRecommendation (rides : List Ride) (userProfile : UserProfile)
    (userLocation destination : Location) (currentHour : ℕ)
    (allUsers : Option (List UserProfile)) : List RecommendationResult :=
  let filteredRides := deductiveFiltering rides userProfile userLocation destination
  let scoredRides := filteredRides.map (fun ride =>
    let inductiveScore := inductiveScoring ride userProfile userLocation destination
      currentHour
    let contentScore := contentBasedFiltering ride userProfile
    let collaborativeScore := match allUsers with
      | some users => if users.length > 0
          then collaborativeFiltering ride userProfile users else fin 50
      | none => fin 50
    RecommendationResult.mk ride
      (inductiveScore * fin 0.4 + contentScore * fin 0.35 + collaborativeScore * fin 0.25))
  scoredRides.mergeSort (fun a b => ble b.recommendationScore a.recommendationScore)

/-- `updateUserProfile` from `recommendations.ts`.  The ambient clock
(`new Date()`) is passed as `now`/`hour`/`day`.  The source mutates the
caller's profile through `preferences.preferredVehicleTypes.push(...)`
(the spread only copies top-level fields), so the model returns both the
function's result (`.1`) and the post-call value of the argument
profile (`.2`). -/
def updateUserProfile (userProfile : UserProfile) (ride : Ride) (rating : ℝ)
    (accepted : Bool) (now : ℝ) (hour : ℕ) (day : ℕ) : UserProfile × UserProfile :=
  let newHistory : RideHistory :=
    { pickup := ⟨ride.pickup_lat, ride.pickup_lng⟩
      dropoff := ⟨ride.dropoff_lat, ride.dropoff_lng⟩
      timestamp := now
      price := ride.price
      vehicleType := ride.vehicle_type
      rating := rating
      timeOfDay := getTimeOfDay hour
      dayOfWeek := day }
  let prefs :=
    if accepted ∧ rating ≥ 4 ∧
        ¬ userProfile.preferences.preferredVehicleTypes.contains ride.vehicle_type then
      { userProfile.preferences with
          preferredVehicleTypes :=
            userProfile.preferences.preferredVehicleTypes ++ [ride.vehicle_type] }
    else userProfile.preferences
  ({ userProfile with
      preferences := prefs
      rideHistory := userProfile.rideHistory ++ [newHistory]
      ratings := userProfile.ratings ++ [rating] },
   { userProfile with preferences := prefs })

/-! ## Pricing (`astar.ts`) -/

/-- The per-km rate `switch` inside `calculatePrice`. -/
def pricePerKm (vehicleType : String) : ℝ :=
  if vehicleType = "economy" then 1.0
  else if vehicleType = "comfort" then 1.5
  else if vehicleType = "premium" then 2.5
  else 1.2

/-- `parseFloat(x.toFixed(2))`: rounding to two decimal places. -/
def round2 (x : ℝ) : ℝ := (round (x * 100) : ℤ) / 100

/-- `calculatePrice` from `astar.ts`: base fare 2.5 plus distance times the
per-km rate, rounded to 2 decimals. -/
def calculatePrice (distanceKm : ℝ) (vehicleType : String) : ℝ :=
  round2 (2.5 + distanceKm * pricePerKm vehicleType)

/-! ## Fallback pathfinder (`astar.ts`)

The `while` loop of `astarPathfinding` is embedded with explicit fuel; the
termination theorem shows the fuel bound `segFuel` always suffices, so the
`none` (out-of-fuel) case never occurs. -/

/-- `PathNode` from `astar.ts`: search node with `parent` back-reference.
The parent chain is a tree by construction, modelled as a nested
inductive. -/
inductive PathNode where
  | mk (loc : Location) (g : ℝ) (h : ℝ) (f : ℝ) (parent : Option PathNode)

/-- The node's location. -/
def PathNode.loc : PathNode → Location
  | .mk l _ _ _ _ => l

/-- The node's cost from the segment start. -/
def PathNode.g : PathNode → ℝ
  | .mk _ g _ _ _ => g

/-- The node's total cost estimate `f = g + h`. -/
def PathNode.f : PathNode → ℝ
  | .mk _ _ _ f _ => f

/-- Walking the `parent` links from a node back to the start, collecting
locations in walk order (`while (node) { path.push(node.location); node =
node.parent }`). -/
def PathNode.walk : PathNode → List Location
  | .mk l _ _ _ none => [l]
  | .mk l _ _ _ (some p) => l :: p.walk

theorem PathNode.walk_ne_nil (n : PathNode) : n.walk ≠ [] := by
  cases n with
  | mk l g h f parent => cases parent <;> simp [walk]

/-- The approximate node identity used for open/closed membership: each of
latitude and longitude within 0.0001 degrees. -/
def near (a b : Location) : Prop :=
  |a.lat - b.lat| < 0.0001 ∧ |a.lng - b.lng| < 0.0001

/-- `generateNeighbors` from `astar.ts`: three synthetic neighbors offset
0.01 degrees toward the goal. -/
def generateNeighbors (current goal : Location) : List Location :=
  let step : ℝ := 0.01
  let directionLat : ℝ := if goal.lat > current.lat then 1 else -1
  let directionLng : ℝ := if goal.lng > current.lng then 1 else -1
  [⟨current.lat + step * directionLat, current.lng⟩,
   ⟨current.lat, current.lng + step * directionLng⟩,
   ⟨current.lat + step * directionLat, current.lng + step * directionLng⟩]

/-- Replace the first element satisfying `p` (the source finds the node
with `find`, then assigns at its `indexOf`). -/
def replaceFirst (p : PathNode → Bool) (nd : PathNode) : List PathNode → List PathNode
  | [] => []
  | x :: xs => if p x then nd :: xs else x :: replaceFirst p nd xs

/-- The body of the `for (const neighborLoc of neighbors)` loop: skip
closed neighbors, skip when an open entry already has a better `g`,
otherwise replace that entry or push a new node. -/
def stepNeighbor (segEnd : Location) (current : PathNode) (closed : List PathNode)
    (opn : List PathNode) (neighborLoc : Location) : List PathNode :=
  if closed.any (fun n => decide (near n.loc neighborLoc)) then opn
  else
    let gScore := current.g + haversineDist current.loc neighborLoc
    let hScore := haversineDist neighborLoc segEnd
    let neighborNode : PathNode := .mk neighborLoc gScore hScore (gScore + hScore)
      (some current)
    match opn.find? (fun n => decide (near n.loc neighborLoc)) with
    | some existingNode =>
        if gScore ≥ existingNode.g then opn
        else replaceFirst (fun n => decide (near n.loc neighborLoc)) neighborNode opn
    | none => opn ++ [neighborNode]

/-- `openSet.sort((a, b) => a.f - b.f)`: stable ascending sort by `f`. -/
def sortByF (opn : List PathNode) : List PathNode :=
  opn.mergeSort (fun a b => decide (a.f ≤ b.f))

/-- One segment's `while (openSet.length > 0)` loop, with fuel.  Returns
the locations pushed onto `path` (in push order) and the distance added to
`totalDistance`, or `none` on fuel exhaustion (shown impossible below). -/
def segLoop (segStart segEnd : Location) :
    ℕ → List PathNode → List PathNode → Option (List Location × ℝ)
  | 0, _, _ => none
  | fuel + 1, opn, closed =>
    match sortByF opn with
    | [] => some ([], 0)
    | current :: rest =>
      if haversineDist current.loc segEnd < 0.1 then
        some (current.walk, current.g)
      else
        let closed' := closed ++ [current]
        let newOpen := (generateNeighbors current.loc segEnd).foldl
          (stepNeighbor segEnd current closed') rest
        match newOpen with
        | [] => some ([segStart, segEnd], haversineDist segStart segEnd)
        | n :: ns => segLoop segStart segEnd fuel (n :: ns) closed'

/-- The start node of a segment (`startNode` in the source; its `f` is
immediately set to `g + h`). -/
def segStartNode (segStart segEnd : Location) : PathNode :=
  .mk segStart 0 (haversineDist segStart segEnd) (0 + haversineDist segStart segEnd) none

/-- Fuel bound for one segment: more than the number of grid points
reachable from the segment start stepping 0.01 degrees toward the end. -/
def segFuel (s e : Location) : ℕ :=
  (2 * (⌈|e.lat - s.lat| * 100⌉ + 1).toNat + 1) *
    (2 * (⌈|e.lng - s.lng| * 100⌉ + 1).toNat + 1) + 1

/-- The `for (let i = 0; i < allPoints.length - 1; i++)` loop over
consecutive segment endpoints, threading the accumulated `path` and
`totalDistance`. -/
def runSegments : List Location → List Location × ℝ → Option (List Location × ℝ)
  | [], acc => some acc
  | [_], acc => some acc
  | a :: b :: rest, (path, dist) =>
    match segLoop a b (segFuel a b) [segStartNode a b] [] with
    | none => none
    | some (locs, d) => runSegments (b :: rest) (path ++ locs, dist + d)

/-- `astarPathfinding` from `astar.ts`: run every segment of
`[start, ...waypoints, goal]`, then reverse the accumulated path once. -/
def astarPathfinding (start goal : Location) (waypoints : List Location) :
    Option (List Location × ℝ) :=
  (runSegments (start :: (waypoints ++ [goal])) ([], 0)).map
    (fun r => (r.1.reverse, r.2))

/-- The `totalDistance` field of an `astarPathfinding` call (the source
destructures `{ totalDistance }`; the `none` default is unreachable by the
termination theorem). -/
def astarTotalDistance (start goal : Location) : ℝ :=
  match astarPathfinding start goal [] with
  | some r => r.2
  | none => 0

/-! ## Proximity matcher (`astar.ts` / `rideService.ts`) -/

/-- `findNearbyRides` from `astar.ts`: rides whose pickup is within
`maxDistanceKm` of the user, paired with that distance, sorted
ascending. -/
def findNearbyRides (userLocation : Location) (rides : List Ride)
    (maxDistanceKm : ℝ) : List (Ride × ℝ) :=
  ((rides.map (fun ride =>
      (ride, haversineDist userLocation ⟨ride.pickup_lat, ride.pickup_lng⟩))).filter
    (fun item => decide (item.2 ≤ maxDistanceKm))).mergeSort
    (fun a b => decide (a.2 ≤ b.2))

/-- One entry of `findMatchingRides`' result. -/
structure MatchedRide where
  ride : Ride
  pickupDistance : ℝ
  dropoffDistance : ℝ
  matchScore : ℝ

/-- The inline match-score formula of `findMatchingRides`, with its
`Math.max(0, ...)` clamp. -/
def matchScoreOf (pickupDistance dropoffDistance routeDeviation : ℝ) : ℝ :=
  max 0 (100 - (pickupDistance * 10 + dropoffDistance * 5 + routeDeviation * 3))

/-- `findMatchingRides` from `rideService.ts`, with the store-fetched
`availableRides` injected as an argument: pickup-range filter, per-ride
match score, `score > 30` filter, descending sort. -/
def findMatchingRides (availableRides : List Ride)
    (userLocation destination : Location) (maxDistanceKm : ℝ) : List MatchedRide :=
  let ridesWithinPickupRange := findNearbyRides userLocation availableRides maxDistanceKm
  let matchedRides := ridesWithinPickupRange.map (fun rd =>
    let dropoffDistance := haversineDist destination ⟨rd.1.dropoff_lat, rd.1.dropoff_lng⟩
    let totalDistance := astarTotalDistance userLocation destination
    let routeDeviation := |totalDistance - rd.1.distance_km|
    MatchedRide.mk rd.1 rd.2 dropoffDistance (matchScoreOf rd.2 dropoffDistance routeDeviation))
  (matchedRides.filter (fun m => decide (m.matchScore > 30))).mergeSort
    (fun a b => decide (b.matchScore ≤ a.matchScore))

/-! ## Concrete sample data used by the claim witnesses -/

/-- A driver with the given rating; all other fields neutral. -/
def mkDriver (rating : ℝ) : Driver :=
  ⟨"d1", rating, 100, "economy", ⟨false, true, .moderate⟩, []⟩

/-- An economy ride at the given price with the given driver rating,
pickup and dropoff at the origin, zero route distance. -/
def mkRide (price driverRating : ℝ) : Ride :=
  ⟨"r1", mkDriver driverRating, 0, 0, 0, 0, price, "economy", 0, 10⟩

/-- A profile with empty history and the given hard limits. -/
def mkProfile (maxPrice minRating : ℝ) : UserProfile :=
  ⟨"u1", [], ⟨[], maxPrice, minRating, false, true, .moderate⟩, [], []⟩

/-- A history entry at the origin with the given price and rating. -/
def mkHistory (price rating : ℝ) : RideHistory :=
  ⟨⟨0, 0⟩, ⟨0, 0⟩, 0, price, "economy", rating, .morning, 1⟩

/-! ## C9 — pricing -/

/-- The spec's rate table and price formula (§4.3), written from the
specification's words for comparison with `calculatePrice`. -/
def specPerKmRate (vehicleClass : String) : ℝ :=
  if vehicleClass = "economy" then 1.0
  else if vehicleClass = "comfort" then 1.5
  else if vehicleClass = "premium" then 2.5
  else 1.2

/-- C9: `calculatePrice(distanceKm, vehicleClass)` equals the base fare 2.5
plus `distanceKm` times the class rate (economy 1.0, comfort 1.5, premium
2.5, anything else 1.2), rounded to 2 decimals; `calculatePrice 0 "economy"
= 2.50` and `calculatePrice 10 "premium" = 27.50`. -/
theorem calculatePrice_spec :
    (∀ (d : ℝ) (v : String), calculatePrice d v = round2 (2.5 + d * specPerKmRate v)) ∧
    pricePerKm "economy" = 1.0 ∧ pricePerKm "comfort" = 1.5 ∧
    pricePerKm "premium" = 2.5 ∧
    (∀ v : String, v ≠ "economy" → v ≠ "comfort" → v ≠ "premium" →
      pricePerKm v = 1.2) ∧
    calculatePrice 0 "economy" = 2.5 ∧ calculatePrice 10 "premium" = 27.5 := by
  refine ⟨?_, ?_, ?_, ?_, ?_, ?_, ?_⟩
  · intro d v
    suffices h : pricePerKm v = specPerKmRate v by rw [calculatePrice, h]
    simp only [pricePerKm, specPerKmRate]
  · simp [pricePerKm]
  · simp [pricePerKm]
  · simp [pricePerKm]
  · intro v h1 h2 h3
    simp [pricePerKm, h1, h2, h3]
  · show round2 (2.5 + 0 * pricePerKm "economy") = 2.5
    rw [round2]
    norm_num [round_eq]
  · show round2 (2.5 + 10 * pricePerKm "premium") = 27.5
    have h : pricePerKm "premium" = 2.5 := by simp [pricePerKm]
    rw [h, round2]
    norm_num [round_eq]

/-- Witness for C9: the default branch of the rate table at a concrete
unknown vehicle class. -/
theorem calculatePrice_spec_witness : pricePerKm "suv" = 1.2 :=
  calculatePrice_spec.2.2.2.2.1 "suv" (by decide) (by decide) (by decide)

/-! ## C6 — deductive filter -/

/-- The spec's elimination disjunction (§4.5 Stage 1), written from the
specification's words. -/
def specEliminated (p : UserProfile) (userLocation : Location) (ride : Ride) : Prop :=
  ride.price > p.preferences.maxPrice ∨
  ride.driver.rating < p.preferences.preferredDriverRatings ∨
  (p.preferences.preferredVehicleTypes ≠ [] ∧
    ride.vehicle_type ∉ p.preferences.preferredVehicleTypes) ∨
  p.preferences.smokingPreference ≠ ride.driver.preferences.smokingAllowed ∨
  haversineDist userLocation ⟨ride.pickup_lat, ride.pickup_lng⟩ > 5

/-- C6: `deductiveFiltering` keeps a ride iff none of the five hard rules
holds; with `maxPrice = 20` a ride priced 25 is excluded, with
`minDriverRating = 4.5` a driver rated 4.0 is excluded, independently and
in combination, and a ride violating no rule is kept. -/
theorem deductiveFiltering_iff_spec :
    (∀ (rides : List Ride) (p : UserProfile) (u d : Location) (r : Ride),
      r ∈ deductiveFiltering rides p u d ↔ r ∈ rides ∧ ¬ specEliminated p u r) ∧
    deductiveFiltering [mkRide 25 5] (mkProfile 20 4.5) ⟨0, 0⟩ ⟨0, 0⟩ = [] ∧
    deductiveFiltering [mkRide 10 4.0] (mkProfile 20 4.5) ⟨0, 0⟩ ⟨0, 0⟩ = [] ∧
    deductiveFiltering [mkRide 25 4.0] (mkProfile 20 4.5) ⟨0, 0⟩ ⟨0, 0⟩ = [] ∧
    deductiveFiltering [mkRide 10 5] (mkProfile 20 4.5) ⟨0, 0⟩ ⟨0, 0⟩ = [mkRide 10 5] := by
  refine ⟨?_, ?_, ?_, ?_, ?_⟩
  · intro rides p u d r
    rw [deductiveFiltering, List.mem_filter]
    have hc : (p.preferences.preferredVehicleTypes.contains r.vehicle_type = true) ↔
        r.vehicle_type ∈ p.preferences.preferredVehicleTypes := List.elem_iff
    have hkeep : deductiveKeep p u r = true ↔ ¬ specEliminated p u r := by
      rw [deductiveKeep, specEliminated]
      split_ifs with h1 h2 h3 h4 h5
      · simp [h1]
      · simp [h2]
      · have hne : p.preferences.preferredVehicleTypes ≠ [] :=
          List.length_pos.mp h3.1
        have hm : r.vehicle_type ∉ p.preferences.preferredVehicleTypes :=
          fun hmem => h3.2 (hc.mpr hmem)
        simp [hne, hm]
      · simp [h4]
      · simp [h5]
      · have hd3 : ¬ (p.preferences.preferredVehicleTypes ≠ [] ∧
            r.vehicle_type ∉ p.preferences.preferredVehicleTypes) := by
          rintro ⟨hne, hm⟩
          exact h3 ⟨List.length_pos.mpr hne, fun hct => hm (hc.mp hct)⟩
        simp [h1, h2, hd3, h4, h5]
    rw [hkeep]
  · simp only [deductiveFiltering, List.filter, deductiveKeep, mkRide, mkProfile, mkDriver]
    norm_num
  · simp only [deductiveFiltering, List.filter, deductiveKeep, mkRide, mkProfile, mkDriver]
    norm_num
  · simp only [deductiveFiltering, List.filter, deductiveKeep, mkRide, mkProfile, mkDriver]
    norm_num
  · simp only [deductiveFiltering, List.filter, deductiveKeep, mkRide, mkProfile, mkDriver]
    norm_num [haversineDist_self]

/-- Witness for C6: the kept/eliminated characterization applied at a
concrete ride and profile. -/
theorem deductiveFiltering_iff_spec_witness :
    mkRide 10 5 ∈ [mkRide 10 5] ∧
    ¬ specEliminated (mkProfile 20 4.5) ⟨0, 0⟩ (mkRide 10 5) :=
  (deductiveFiltering_iff_spec.1 [mkRide 10 5] (mkProfile 20 4.5) ⟨0, 0⟩ ⟨0, 0⟩
    (mkRide 10 5)).mp (by rw [deductiveFiltering_iff_spec.2.2.2.2]; exact List.mem_singleton.mpr rfl)

/-! ## C5 — neutral collaborative score -/

/-- C5: `collaborativeFiltering` is exactly 50 for every ride and profile
when the peer list is empty, and also whenever no peer passes the
similarity threshold; and when `hybridRecommendation` is given no peer
list, every result's score is combined with the neutral collaborative
score 50. -/
theorem collaborativeFiltering_neutral :
    (∀ (ride : Ride) (p : UserProfile), collaborativeFiltering ride p [] = fin 50) ∧
    (∀ (ride : Ride) (p : UserProfile) (users : List UserProfile),
      findSimilarUsers p users = [] → collaborativeFiltering ride p users = fin 50) ∧
    (∀ (rides : List Ride) (p : UserProfile) (u d : Location) (hour : ℕ)
      (x : RecommendationResult), x ∈ hybridRecommendation rides p u d hour none →
        x.recommendationScore = inductiveScoring x.ride p u d hour * fin 0.4 +
          contentBasedFiltering x.ride p * fin 0.35 + fin 50 * fin 0.25) := by
  refine ⟨?_, ?_, ?_⟩
  · intro ride p
    simp [collaborativeFiltering, findSimilarUsers]
  · intro ride p users h
    simp [collaborativeFiltering, h]
  · intro rides p u d hour x hx
    rw [hybridRecommendation] at hx
    rw [List.mem_mergeSort] at hx
    obtain ⟨ride, _, rfl⟩ := List.mem_map.mp hx
    rfl

/-- Witness for C5: the threshold fallback and the no-peer hybrid
combination at concrete inputs. -/
theorem collaborativeFiltering_neutral_witness :
    collaborativeFiltering (mkRide 10 5) (mkProfile 100 4) [] = fin 50 ∧
    (RecommendationResult.mk (mkRide 10 5)
        (inductiveScoring (mkRide 10 5) (mkProfile 100 4) ⟨0, 0⟩ ⟨0, 0⟩ 8 * fin 0.4 +
          contentBasedFiltering (mkRide 10 5) (mkProfile 100 4) * fin 0.35 +
          fin 50 * fin 0.25)).recommendationScore =
      inductiveScoring (mkRide 10 5) (mkProfile 100 4) ⟨0, 0⟩ ⟨0, 0⟩ 8 * fin 0.4 +
        contentBasedFiltering (mkRide 10 5) (mkProfile 100 4) * fin 0.35 +
        fin 50 * fin 0.25 := by
  constructor
  · exact collaborativeFiltering_neutral.2.1 (mkRide 10 5) (mkProfile 100 4) []
      (by simp [findSimilarUsers])
  · refine collaborativeFiltering_neutral.2.2 [mkRide 10 5] (mkProfile 100 4)
      ⟨0, 0⟩ ⟨0, 0⟩ 8 _ ?_
    have hfilter : deductiveFiltering [mkRide 10 5] (mkProfile 100 4) ⟨0, 0⟩ ⟨0, 0⟩ =
        [mkRide 10 5] := by
      simp only [deductiveFiltering, List.filter, deductiveKeep, mkRide, mkProfile, mkDriver]
      norm_num [haversineDist_self]
    rw [hybridRecommendation, hfilter]
    simp

/-! ## C10 — similar-user postconditions -/

/-- C10: every peer returned by `findSimilarUsers` has a non-empty ride
history (so `collaborativeFiltering`'s division by
`user.rideHistory.length` is never by zero), an id different from the
rider's, and similarity strictly above 0.5; at most 10 peers are
returned. -/
theorem findSimilarUsers_spec :
    (∀ (p : UserProfile) (users : List UserProfile) (su : SimilarUser),
      su ∈ findSimilarUsers p users →
        su.user.rideHistory.length ≠ 0 ∧ su.user.id ≠ p.id ∧
          blt (fin 0.5) su.similarity = true) ∧
    (∀ (p : UserProfile) (users : List UserProfile),
      (findSimilarUsers p users).length ≤ 10) := by
  constructor
  · intro p users su h
    rw [findSimilarUsers] at h
    have h1 := List.mem_of_mem_take h
    rw [List.mem_mergeSort, List.mem_filter] at h1
    obtain ⟨hmap, hblt⟩ := h1
    obtain ⟨u, hu, rfl⟩ := List.mem_map.mp hmap
    have hcond := (List.mem_filter.mp hu).2
    simp only [decide_eq_true_eq] at hcond
    exact ⟨hcond.2.ne', hcond.1, hblt⟩
  · intro p users
    rw [findSimilarUsers]
    exact List.length_take_le 10 _

/-- The rider profile used by the C10 witness. -/
def riderProfile : UserProfile :=
  ⟨"u1", [], ⟨["economy"], 100, 4, false, true, .moderate⟩, [], []⟩

/-- A peer profile identical in preferences to `riderProfile` but with a
different id and one history entry. -/
def peerProfile : UserProfile :=
  ⟨"u2", [mkHistory 10 5], ⟨["economy"], 100, 4, false, true, .moderate⟩, [], []⟩

/-- Witness for C10: a concrete peer that is returned, with its
postconditions. -/
theorem findSimilarUsers_spec_witness :
    (SimilarUser.mk peerProfile (fin 1)).user.rideHistory.length ≠ 0 ∧
    (SimilarUser.mk peerProfile (fin 1)).user.id ≠ riderProfile.id ∧
    blt (fin 0.5) (SimilarUser.mk peerProfile (fin 1)).similarity = true := by
  refine findSimilarUsers_spec.1 riderProfile [peerProfile] _ ?_
  have hsim : calculateUserSimilarity riderProfile peerProfile = fin 1 := by
    simp only [calculateUserSimilarity, riderProfile, peerProfile]
    norm_num
  rw [findSimilarUsers]
  have hfilter1 : [peerProfile].filter
      (fun u => decide (u.id ≠ riderProfile.id ∧ u.rideHistory.length > 0)) =
      [peerProfile] := by
    simp [riderProfile, peerProfile, mkHistory]
  rw [hfilter1, List.map_cons, List.map_nil, hsim]
  have hb : blt (fin 0.5) (fin 1) = true := by
    rw [blt_fin_fin]
    norm_num
  simp [hb]

/-! ## C7 — append-only history and idempotent preference insertion -/

/-- The preference-list component of `updateUserProfile`'s result. -/
theorem updateUserProfile_fst_prefs (p : UserProfile) (ride : Ride) (rating : ℝ)
    (accepted : Bool) (now : ℝ) (hour day : ℕ) :
    ((updateUserProfile p ride rating accepted now hour day).1).preferences.preferredVehicleTypes =
      if accepted = true ∧ rating ≥ 4 ∧
          ¬ (p.preferences.preferredVehicleTypes.contains ride.vehicle_type = true)
      then p.preferences.preferredVehicleTypes ++ [ride.vehicle_type]
      else p.preferences.preferredVehicleTypes := by
  simp only [updateUserProfile]
  split_ifs <;> rfl

/-- The preference-list component of the post-call argument profile. -/
theorem updateUserProfile_snd_prefs (p : UserProfile) (ride : Ride) (rating : ℝ)
    (accepted : Bool) (now : ℝ) (hour day : ℕ) :
    ((updateUserProfile p ride rating accepted now hour day).2).preferences.preferredVehicleTypes =
      if accepted = true ∧ rating ≥ 4 ∧
          ¬ (p.preferences.preferredVehicleTypes.contains ride.vehicle_type = true)
      then p.preferences.preferredVehicleTypes ++ [ride.vehicle_type]
      else p.preferences.preferredVehicleTypes := by
  simp only [updateUserProfile]
  split_ifs <;> rfl

/-- C7: `updateUserProfile` always returns a profile whose history is
exactly one entry longer than the input's, and applying it twice with
`accepted = true`, `rating = 5` for the same vehicle class leaves that
class in `preferredVehicleTypes` exactly once (assuming it occurs at most
once beforehand, `preferredVehicleClasses` being a set per the data
model). -/
theorem updateUserProfile_append_idem :
    (∀ (p : UserProfile) (ride : Ride) (rating : ℝ) (accepted : Bool)
      (now : ℝ) (hour day : ℕ),
      ((updateUserProfile p ride rating accepted now hour day).1).rideHistory.length =
        p.rideHistory.length + 1) ∧
    (∀ (p : UserProfile) (ride : Ride) (now now' : ℝ) (hour day hour' day' : ℕ),
      p.preferences.preferredVehicleTypes.count ride.vehicle_type ≤ 1 →
      ((updateUserProfile ((updateUserProfile p ride 5 true now hour day).1)
          ride 5 true now' hour' day').1).preferences.preferredVehicleTypes.count
        ride.vehicle_type = 1) := by
  constructor
  · intro p ride rating accepted now hour day
    simp [updateUserProfile]
  · intro p ride now now' hour day hour' day' hcount
    rw [updateUserProfile_fst_prefs, updateUserProfile_fst_prefs]
    by_cases hv : p.preferences.preferredVehicleTypes.contains ride.vehicle_type = true
    · have hmem : ride.vehicle_type ∈ p.preferences.preferredVehicleTypes :=
        List.elem_iff.mp hv
      have hone : 1 ≤ p.preferences.preferredVehicleTypes.count ride.vehicle_type :=
        List.one_le_count_iff.mpr hmem
      have hc1 : ¬ ((true : Bool) = true ∧ (5 : ℝ) ≥ 4 ∧
          ¬ (p.preferences.preferredVehicleTypes.contains ride.vehicle_type = true)) := by
        intro h
        exact h.2.2 hv
      rw [if_neg hc1, if_neg hc1]
      exact le_antisymm hcount hone
    · have hnot : ride.vehicle_type ∉ p.preferences.preferredVehicleTypes := by
        intro hmem
        exact hv (List.elem_eq_true_of_mem hmem)
      have hc1 : ((true : Bool) = true ∧ (5 : ℝ) ≥ 4 ∧
          ¬ (p.preferences.preferredVehicleTypes.contains ride.vehicle_type = true)) :=
        ⟨rfl, by norm_num, hv⟩
      rw [if_pos hc1]
      have hv2 : (p.preferences.preferredVehicleTypes ++
          [ride.vehicle_type]).contains ride.vehicle_type = true :=
        List.elem_eq_true_of_mem (List.mem_append_right _ (List.mem_singleton.mpr rfl))
      have hc2 : ¬ ((true : Bool) = true ∧ (5 : ℝ) ≥ 4 ∧
          ¬ ((p.preferences.preferredVehicleTypes ++
            [ride.vehicle_type]).contains ride.vehicle_type = true)) := by
        intro h
        exact h.2.2 hv2
      rw [if_neg hc2]
      rw [List.count_append, List.count_eq_zero.mpr hnot]
      simp

/-- Witness for C7: the double update at a concrete profile with an empty
preference list. -/
theorem updateUserProfile_append_idem_witness :
    ((updateUserProfile ((updateUserProfile (mkProfile 100 4) (mkRide 10 5) 5 true
        0 8 1).1) (mkRide 10 5) 5 true 0 9 2).1).preferences.preferredVehicleTypes.count
      (mkRide 10 5).vehicle_type = 1 :=
  updateUserProfile_append_idem.2 (mkProfile 100 4) (mkRide 10 5) 0 0 8 1 9 2
    (by simp [mkProfile, mkRide])

/-! ## C2 — the profile learner mutates its input -/

/-- The profile used for the C2 counterexample: `preferredVehicleTypes`
is `["economy"]`. -/
def ecoProfile : UserProfile :=
  ⟨"u1", [], ⟨["economy"], 100, 4, false, true, .moderate⟩, [], []⟩

/-- A premium-class ride. -/
def premiumRide : Ride :=
  ⟨"r2", mkDriver 5, 0, 0, 0, 0, 30, "premium", 5, 20⟩

/-- C2 (refuting evaluation): with `accepted = true` and `rating = 5` on a
ride whose class is not yet preferred, the *argument* profile's
`preferences.preferredVehicleTypes` has changed after the call — the
source's `push` mutates the caller's profile, so `updateUserProfile` does
not leave the input unchanged. -/
theorem updateUserProfile_mutates_input :
    ((updateUserProfile ecoProfile premiumRide 5 true 0 8 1).2).preferences.preferredVehicleTypes
      = ["economy", "premium"] ∧
    ecoProfile.preferences.preferredVehicleTypes = ["economy"] ∧
    (updateUserProfile ecoProfile premiumRide 5 true 0 8 1).2 ≠ ecoProfile := by
  have hc : ((true : Bool) = true ∧ (5 : ℝ) ≥ 4 ∧
      ¬ (ecoProfile.preferences.preferredVehicleTypes.contains
        premiumRide.vehicle_type = true)) := by
    refine ⟨rfl, by norm_num, ?_⟩
    simp [ecoProfile, premiumRide]
  have h1 : ((updateUserProfile ecoProfile premiumRide 5 true 0 8 1).2).preferences.preferredVehicleTypes
      = ["economy", "premium"] := by
    rw [updateUserProfile_snd_prefs, if_pos hc]
    simp [ecoProfile, premiumRide]
  refine ⟨h1, rfl, ?_⟩
  intro h
  have h2 := congrArg (fun q => q.preferences.preferredVehicleTypes) h
  simp only [h1] at h2
  simp [ecoProfile] at h2

/-! ## C1 — scoring stages are not total: NaN under sparse data -/

/-- A profile with one ride in its history but an empty `ratings` list
(exactly the shape `getUserProfile` in `rideService.ts` builds, which
always sets `ratings: []`). -/
def sparseProfile : UserProfile :=
  ⟨"u1", [mkHistory 10 5], ⟨[], 100, 4, false, true, .moderate⟩, [], []⟩

/-- A profile whose ride history has only zero prices. -/
def zeroPriceProfile : UserProfile :=
  ⟨"u1", [mkHistory 0 5], ⟨[], 100, 4, false, true, .moderate⟩, [5], []⟩

/-- C1 (refuting evaluation): `contentBasedFiltering` returns `NaN` on a
profile with non-empty history and empty `ratingsGiven` (0/0 in the
rating-alignment average), and `inductiveScoring` returns `NaN` when all
historical prices and the candidate price are zero (0/0 in
`inferPriceSensitivity`) — the stages are not total on valid sparse
inputs. -/
theorem scoring_stage_nan :
    contentBasedFiltering (mkRide 10 5) sparseProfile = JNum.nan ∧
    sparseProfile.rideHistory ≠ [] ∧ sparseProfile.ratings = [] ∧
    inductiveScoring (mkRide 0 5) zeroPriceProfile ⟨0, 0⟩ ⟨0, 0⟩ 8 = JNum.nan ∧
    (∀ h ∈ zeroPriceProfile.rideHistory, h.price = 0) := by
  refine ⟨?_, by simp [sparseProfile], rfl, ?_, by simp [zeroPriceProfile, mkHistory]⟩
  · have hdist : haversineDist (mkHistory 10 5).pickup (mkHistory 10 5).dropoff = 0 := by
      simp [mkHistory, haversineDist_self]
    simp only [contentBasedFiltering, sparseProfile, mkRide, mkHistory]
    norm_num [hdist]
  · have hps : inferPriceSensitivity (mkRide 0 5).price
        zeroPriceProfile.rideHistory = JNum.nan := by
      simp only [inferPriceSensitivity, zeroPriceProfile, mkRide, mkHistory]
      norm_num
    simp only [inductiveScoring, hps]
    simp

/-! ## A* evaluation lemmas -/

theorem sortByF_singleton (n : PathNode) : sortByF [n] = [n] := by
  simp [sortByF]

/-- `segFuel` is a successor. -/
theorem segFuel_eq (s e : Location) :
    segFuel s e = ((2 * (⌈|e.lat - s.lat| * 100⌉ + 1).toNat + 1) *
      (2 * (⌈|e.lng - s.lng| * 100⌉ + 1).toNat + 1)) + 1 := rfl

/-- When the segment start is already within the 0.1 km acceptance
tolerance of the segment end, the loop accepts immediately and contributes
the single location `s` at cost 0. -/
theorem segLoop_accept (s e : Location) (fuel : ℕ)
    (h : haversineDist s e < 0.1) :
    segLoop s e (fuel + 1) [segStartNode s e] [] = some ([s], 0) := by
  have hsort := sortByF_singleton (segStartNode s e)
  simp only [segLoop, hsort]
  rw [if_pos (by simpa [segStartNode, PathNode.loc] using h)]
  simp [segStartNode, PathNode.walk, PathNode.g]

/-- Evaluation of the degenerate call: identical start and goal. -/
theorem astar_zero_eval :
    astarPathfinding ⟨0, 0⟩ ⟨0, 0⟩ [] = some ([⟨0, 0⟩], 0) := by
  have hlt : haversineDist ⟨0, 0⟩ ⟨0, 0⟩ < 0.1 := by
    rw [haversineDist_self]
    norm_num
  rw [astarPathfinding]
  rw [show ((⟨0, 0⟩ : Location) :: ([] ++ [⟨0, 0⟩])) = [⟨0, 0⟩, ⟨0, 0⟩] from rfl]
  rw [runSegments.eq_def]
  simp only []
  rw [segFuel_eq, segLoop_accept _ _ _ hlt]
  simp [runSegments]

theorem hav_0_to_wpt : haversineDist ⟨0, 0⟩ ⟨0.0005, 0⟩ < 0.1 := by
  have heq : (⟨0.0005, 0⟩ : Location) = ⟨0 + 0.0005, 0⟩ := by
    ext <;> norm_num
  rw [heq, haversineDist_meridian 0 0 0.0005 (by norm_num) (by norm_num)]
  have hb := Real.pi_lt_d2
  nlinarith

theorem hav_wpt_to_goal : haversineDist ⟨0.0005, 0⟩ ⟨0.001, 0⟩ < 0.1 := by
  have heq : (⟨0.001, 0⟩ : Location) = ⟨0.0005 + 0.0005, 0⟩ := by
    ext <;> norm_num
  rw [heq, haversineDist_meridian 0.0005 0 0.0005 (by norm_num) (by norm_num)]
  have hb := Real.pi_lt_d2
  nlinarith

theorem hav_0_to_goal : ¬ haversineDist ⟨0, 0⟩ ⟨0.001, 0⟩ < 0.1 := by
  have heq : (⟨0.001, 0⟩ : Location) = ⟨0 + 0.001, 0⟩ := by
    ext <;> norm_num
  rw [heq, haversineDist_meridian 0 0 0.001 (by norm_num) (by norm_num)]
  have hb := Real.pi_gt_d2
  intro hcon
  nlinarith

/-- Evaluation of a waypoint call in which every segment accepts
immediately: the accumulated path is reversed only once globally, so the
result comes back goal-to-start, not start-to-goal. -/
theorem astar_waypoint_eval :
    astarPathfinding ⟨0, 0⟩ ⟨0.001, 0⟩ [⟨0.0005, 0⟩] =
      some ([⟨0.0005, 0⟩, ⟨0, 0⟩], 0) := by
  rw [astarPathfinding]
  rw [show ((⟨0, 0⟩ : Location) :: ([⟨0.0005, 0⟩] ++ [⟨0.001, 0⟩])) =
    [⟨0, 0⟩, ⟨0.0005, 0⟩, ⟨0.001, 0⟩] from rfl]
  rw [runSegments.eq_def]
  simp only []
  rw [segFuel_eq, segLoop_accept _ _ _ hav_0_to_wpt]
  simp only []
  rw [runSegments.eq_def]
  simp only []
  rw [segFuel_eq, segLoop_accept _ _ _ hav_wpt_to_goal]
  simp [runSegments]

/-! ## C8 — proximity match scoring -/

/-- C8: every entry of `findMatchingRides` carries
`matchScore = max 0 (100 − (pickup×10 + dropoff×5 + deviation×3))` with
`deviation = |estimatedTripDistance − distanceKm|`, only scores above 30
are returned, the result is sorted descending, and the formula gives 80 at
`(1, 2, 0)`. -/
theorem findMatchingRides_spec :
    (∀ (rides : List Ride) (u d : Location) (maxKm : ℝ) (m : MatchedRide),
      m ∈ findMatchingRides rides u d maxKm →
        m.matchScore = matchScoreOf m.pickupDistance m.dropoffDistance
          |astarTotalDistance u d - m.ride.distance_km| ∧ m.matchScore > 30) ∧
    (∀ (rides : List Ride) (u d : Location) (maxKm : ℝ),
      (findMatchingRides rides u d maxKm).Pairwise
        (fun a b => b.matchScore ≤ a.matchScore)) ∧
    matchScoreOf 1 2 0 = 80 := by
  refine ⟨?_, ?_, ?_⟩
  · intro rides u d maxKm m hm
    rw [findMatchingRides] at hm
    rw [List.mem_mergeSort, List.mem_filter] at hm
    obtain ⟨hmem, hgt⟩ := hm
    simp only [decide_eq_true_eq] at hgt
    refine ⟨?_, hgt⟩
    obtain ⟨rd, _, rfl⟩ := List.mem_map.mp hmem
    rfl
  · intro rides u d maxKm
    have key : ∀ l : List MatchedRide,
        (l.mergeSort (fun a b => decide (b.matchScore ≤ a.matchScore))).Pairwise
          (fun a b => b.matchScore ≤ a.matchScore) := by
      intro l
      have hs := @List.sorted_mergeSort MatchedRide
        (fun a b => decide (b.matchScore ≤ a.matchScore))
        (fun a b c hab hbc => by
          simp only [decide_eq_true_eq] at hab hbc ⊢
          exact le_trans hbc hab)
        (fun a b => by
          rcases le_total b.matchScore a.matchScore with h | h <;> simp [h]) l
      exact hs.imp (fun h => by simpa using h)
    rw [findMatchingRides]
    exact key _
  · rw [matchScoreOf]
    norm_num

/-- Witness for C8: a concrete matched ride with its score equation and
threshold. -/
theorem findMatchingRides_spec_witness :
    (MatchedRide.mk (mkRide 10 5) 0 0 100).matchScore =
      matchScoreOf (MatchedRide.mk (mkRide 10 5) 0 0 100).pickupDistance
        (MatchedRide.mk (mkRide 10 5) 0 0 100).dropoffDistance
        |astarTotalDistance ⟨0, 0⟩ ⟨0, 0⟩ -
          (MatchedRide.mk (mkRide 10 5) 0 0 100).ride.distance_km| ∧
    (MatchedRide.mk (mkRide 10 5) 0 0 100).matchScore > 30 := by
  refine findMatchingRides_spec.1 [mkRide 10 5] ⟨0, 0⟩ ⟨0, 0⟩ 5 _ ?_
  have hatd : astarTotalDistance ⟨0, 0⟩ ⟨0, 0⟩ = 0 := by
    rw [astarTotalDistance, astar_zero_eval]
  have hnear : findNearbyRides ⟨0, 0⟩ [mkRide 10 5] 5 = [(mkRide 10 5, 0)] := by
    rw [findNearbyRides]
    have hd : haversineDist ⟨0, 0⟩ ⟨(mkRide 10 5).pickup_lat, (mkRide 10 5).pickup_lng⟩ = 0 := by
      rw [show (⟨(mkRide 10 5).pickup_lat, (mkRide 10 5).pickup_lng⟩ : Location) = ⟨0, 0⟩
        from rfl]
      exact haversineDist_self _
    simp [hd]
  rw [findMatchingRides, hnear]
  have hd2 : haversineDist ⟨0, 0⟩ ⟨(mkRide 10 5).dropoff_lat, (mkRide 10 5).dropoff_lng⟩ = 0 := by
    rw [show (⟨(mkRide 10 5).dropoff_lat, (mkRide 10 5).dropoff_lng⟩ : Location) = ⟨0, 0⟩
      from rfl]
    exact haversineDist_self _
  have hms : matchScoreOf 0 0 |astarTotalDistance ⟨0, 0⟩ ⟨0, 0⟩ -
      (mkRide 10 5).distance_km| = 100 := by
    rw [hatd, show (mkRide 10 5).distance_km = 0 from rfl, matchScoreOf]
    norm_num
  simp [hd2, hms]
  norm_num

/-! ## Termination of the A* segment loop

Every location the loop ever touches lies on the finite lattice of
0.01-degree offsets from the segment start, confined to the coordinate
interval spanned by the endpoints (the synthetic neighbors always step
toward the goal).  The closed set collects pairwise-distinct lattice
points, so the loop runs out of new nodes within `segFuel` iterations. -/

/-- Membership in the segment's reachable lattice. -/
def onGrid (s e : Location) (loc : Location) : Prop :=
  (∃ k : ℤ, loc.lat = s.lat + k / 100) ∧
  min s.lat e.lat - 0.01 ≤ loc.lat ∧ loc.lat ≤ max s.lat e.lat + 0.01 ∧
  (∃ k : ℤ, loc.lng = s.lng + k / 100) ∧
  min s.lng e.lng - 0.01 ≤ loc.lng ∧ loc.lng ≤ max s.lng e.lng + 0.01

/-- One directed 0.01-degree step toward the goal coordinate stays on the
lattice and inside the widened interval. -/
theorem stepDir_mem (slat elat x : ℝ)
    (hk : ∃ k : ℤ, x = slat + k / 100)
    (hlo : min slat elat - 0.01 ≤ x) (hhi : x ≤ max slat elat + 0.01) :
    (∃ k : ℤ, x + 0.01 * (if elat > x then 1 else -1) = slat + k / 100) ∧
    min slat elat - 0.01 ≤ x + 0.01 * (if elat > x then 1 else -1) ∧
    x + 0.01 * (if elat > x then 1 else -1) ≤ max slat elat + 0.01 := by
  obtain ⟨k, hkx⟩ := hk
  have h100 : (0.01 : ℝ) = 1 / 100 := by norm_num
  by_cases hd : elat > x
  · rw [if_pos hd]
    refine ⟨⟨k + 1, by rw [hkx, h100]; push_cast; ring⟩, by linarith, ?_⟩
    have h1 : elat ≤ max slat elat := le_max_right _ _
    linarith
  · rw [if_neg hd]
    push_neg at hd
    refine ⟨⟨k - 1, by rw [hkx, h100]; push_cast; ring⟩, ?_, by linarith⟩
    have h1 : min slat elat ≤ elat := min_le_right _ _
    linarith

/-- The three generated neighbors of a lattice point are lattice points. -/
theorem neighbor_onGrid (s e cur : Location) (hc : onGrid s e cur) :
    ∀ n ∈ generateNeighbors cur e, onGrid s e n := by
  obtain ⟨hklat, hlolat, hhilat, hklng, hlolng, hhilng⟩ := hc
  have hlat := stepDir_mem s.lat e.lat cur.lat hklat hlolat hhilat
  have hlng := stepDir_mem s.lng e.lng cur.lng hklng hlolng hhilng
  intro n hn
  simp only [generateNeighbors, List.mem_cons, List.not_mem_nil, or_false] at hn
  rcases hn with rfl | rfl | rfl
  · exact ⟨hlat.1, hlat.2.1, hlat.2.2, hklng, hlolng, hhilng⟩
  · exact ⟨hklat, hlolat, hhilat, hlng.1, hlng.2.1, hlng.2.2⟩
  · exact ⟨hlat.1, hlat.2.1, hlat.2.2, hlng.1, hlng.2.1, hlng.2.2⟩

/-- Two points of the same 0.01-degree lattice within 0.0001 degrees of
each other are equal. -/
theorem lattice_close_eq (base x y : ℝ) (kx ky : ℤ)
    (hx : x = base + kx / 100) (hy : y = base + ky / 100)
    (h : |x - y| < 0.0001) : x = y := by
  have hdiff : x - y = ((kx - ky : ℤ) : ℝ) / 100 := by
    rw [hx, hy]
    push_cast
    ring
  rw [hdiff] at h
  have h1 : |((kx - ky : ℤ) : ℝ)| < 1 := by
    rw [abs_div, show |(100 : ℝ)| = 100 by norm_num] at h
    nlinarith [abs_nonneg ((kx - ky : ℤ) : ℝ)]
  have h2 : |kx - ky| < 1 := by exact_mod_cast h1
  have h3 : kx = ky := by
    rw [abs_lt] at h2
    omega
  rw [hx, hy, h3]

/-- On the lattice, the 0.0001-degree `near` tolerance coincides with
equality (distinct lattice points are at least 0.01 degrees apart). -/
theorem near_onGrid_iff (s e : Location) {a b : Location}
    (ha : onGrid s e a) (hb : onGrid s e b) : near a b ↔ a = b := by
  constructor
  · rintro ⟨h1, h2⟩
    obtain ⟨⟨ka, hka⟩, -, -, ⟨la, hla⟩, -, -⟩ := ha
    obtain ⟨⟨kb, hkb⟩, -, -, ⟨lb, hlb⟩, -, -⟩ := hb
    exact Location.ext (lattice_close_eq s.lat a.lat b.lat ka kb hka hkb h1)
      (lattice_close_eq s.lng a.lng b.lng la lb hla hlb h2)
  · rintro rfl
    refine ⟨?_, ?_⟩ <;> (rw [sub_self, abs_zero]; norm_num)

/-- Loop invariant of one A* segment: every open and closed node lies on
the lattice, open and closed positions are disjoint, and positions are
pairwise distinct within each set. -/
structure SegInv (s e : Location) (opn closed : List PathNode) : Prop where
  og : ∀ n ∈ opn, onGrid s e n.loc
  cg : ∀ n ∈ closed, onGrid s e n.loc
  oc : ∀ a ∈ opn, ∀ c ∈ closed, a.loc ≠ c.loc
  onodup : opn.Pairwise (fun a b => a.loc ≠ b.loc)
  cnodup : closed.Pairwise (fun a b => a.loc ≠ b.loc)

/-- Sorting the open set preserves the invariant. -/
theorem SegInv.sort {s e : Location} {opn closed : List PathNode}
    (h : SegInv s e opn closed) : SegInv s e (sortByF opn) closed := by
  have hperm : List.Perm (sortByF opn) opn := List.mergeSort_perm opn _
  refine ⟨?_, h.cg, ?_, ?_, h.cnodup⟩
  · intro n hn
    exact h.og n (hperm.subset hn)
  · intro a ha c hc
    exact h.oc a (hperm.subset ha) c hc
  · exact (hperm.pairwise_iff (fun hxy => hxy.symm)).mpr h.onodup

theorem mem_replaceFirst {p : PathNode → Bool} {nd y : PathNode} :
    ∀ {l : List PathNode}, y ∈ replaceFirst p nd l →
      y ∈ l ∨ (y = nd ∧ ∃ z ∈ l, p z = true)
  | [], h => absurd h (by simp [replaceFirst])
  | x :: xs, h => by
    rw [replaceFirst] at h
    by_cases hp : p x
    · rw [if_pos hp] at h
      rcases List.mem_cons.mp h with rfl | hy
      · exact Or.inr ⟨rfl, x, List.mem_cons_self _ _, hp⟩
      · exact Or.inl (List.mem_cons_of_mem _ hy)
    · rw [if_neg hp] at h
      rcases List.mem_cons.mp h with rfl | hy
      · exact Or.inl (List.mem_cons_self _ _)
      · rcases mem_replaceFirst hy with h1 | ⟨rfl, z, hz, hpz⟩
        · exact Or.inl (List.mem_cons_of_mem _ h1)
        · exact Or.inr ⟨rfl, z, List.mem_cons_of_mem _ hz, hpz⟩

/-- Replacing the first match with a node at the same position preserves
pairwise position distinctness. -/
theorem pairwise_replaceFirst {p : PathNode → Bool} {nd : PathNode} :
    ∀ {l : List PathNode}, (∀ z ∈ l, p z = true → z.loc = nd.loc) →
      l.Pairwise (fun a b => a.loc ≠ b.loc) →
      (replaceFirst p nd l).Pairwise (fun a b => a.loc ≠ b.loc)
  | [], _, _ => by simp [replaceFirst]
  | x :: xs, hsame, h => by
    rw [replaceFirst]
    obtain ⟨hx, hxs⟩ := List.pairwise_cons.mp h
    by_cases hp : p x
    · rw [if_pos hp]
      refine List.pairwise_cons.mpr ⟨?_, hxs⟩
      intro b hb
      rw [← hsame x (List.mem_cons_self _ _) hp]
      exact hx b hb
    · rw [if_neg hp]
      refine List.pairwise_cons.mpr
        ⟨?_, pairwise_replaceFirst (fun z hz => hsame z (List.mem_cons_of_mem _ hz)) hxs⟩
      intro b hb
      rcases mem_replaceFirst hb with h1 | ⟨rfl, z, hz, hpz⟩
      · exact hx b h1
      · rw [← hsame z (List.mem_cons_of_mem _ hz) hpz]
        exact hx z hz

/-- One neighbor-update step preserves the invariant. -/
theorem stepNeighbor_inv (s e : Location) (current : PathNode)
    (closed opn : List PathNode) (nloc : Location)
    (hnloc : onGrid s e nloc)
    (hinv : SegInv s e opn closed) :
    SegInv s e (stepNeighbor e current closed opn nloc) closed := by
  rw [stepNeighbor]
  by_cases hcl : closed.any (fun n => decide (near n.loc nloc)) = true
  · rw [if_pos hcl]
    exact hinv
  · rw [if_neg hcl]
    have hnotclosed : ∀ c ∈ closed, c.loc ≠ nloc := by
      intro c hc heq
      apply hcl
      rw [List.any_eq_true]
      refine ⟨c, hc, ?_⟩
      have : near c.loc nloc := by
        rw [heq]
        exact ⟨by rw [sub_self, abs_zero]; norm_num, by rw [sub_self, abs_zero]; norm_num⟩
      simpa using this
    cases hfind : opn.find? (fun n => decide (near n.loc nloc)) with
    | some existing =>
      dsimp only
      have hmem := List.mem_of_find?_eq_some hfind
      have hpred : near existing.loc nloc := by
        have := List.find?_some hfind
        simpa using this
      have hexloc : existing.loc = nloc :=
        (near_onGrid_iff s e (hinv.og _ hmem) hnloc).mp hpred
      by_cases hge : current.g + haversineDist current.loc nloc ≥ existing.g
      · rw [if_pos hge]
        exact hinv
      · rw [if_neg hge]
        have hsame : ∀ z ∈ opn, (decide (near z.loc nloc)) = true →
            z.loc = (PathNode.mk nloc (current.g + haversineDist current.loc nloc)
              (haversineDist nloc e)
              (current.g + haversineDist current.loc nloc + haversineDist nloc e)
              (some current)).loc := by
          intro z hz hpz
          simp only [decide_eq_true_eq] at hpz
          exact (near_onGrid_iff s e (hinv.og _ hz) hnloc).mp hpz
        refine ⟨?_, hinv.cg, ?_, pairwise_replaceFirst hsame hinv.onodup, hinv.cnodup⟩
        · intro n hn
          rcases mem_replaceFirst hn with h1 | ⟨rfl, -⟩
          · exact hinv.og n h1
          · exact hnloc
        · intro a ha c hc
          rcases mem_replaceFirst ha with h1 | ⟨rfl, -⟩
          · exact hinv.oc a h1 c hc
          · exact fun heq => hnotclosed c hc (by simpa [PathNode.loc] using heq.symm)
    | none =>
      dsimp only
      have hnone : ∀ x ∈ opn, ¬ near x.loc nloc := by
        intro x hx
        have := List.find?_eq_none.mp hfind x hx
        simpa using this
      have hopennot : ∀ x ∈ opn, x.loc ≠ nloc := by
        intro x hx heq
        exact hnone x hx (heq ▸ ⟨by rw [sub_self, abs_zero]; norm_num,
          by rw [sub_self, abs_zero]; norm_num⟩)
      refine ⟨?_, hinv.cg, ?_, ?_, hinv.cnodup⟩
      · intro n hn
        rcases List.mem_append.mp hn with h1 | h1
        · exact hinv.og n h1
        · rw [List.mem_singleton.mp h1]
          exact hnloc
      · intro a ha c hc
        rcases List.mem_append.mp ha with h1 | h1
        · exact hinv.oc a h1 c hc
        · rw [List.mem_singleton.mp h1]
          exact fun heq => hnotclosed c hc (by simpa [PathNode.loc] using heq.symm)
      · rw [List.pairwise_append]
        refine ⟨hinv.onodup, List.pairwise_singleton _ _, ?_⟩
        intro a ha b hb
        rw [List.mem_singleton.mp hb]
        exact hopennot a ha

/-- Folding the neighbor-update step over any list of lattice locations
preserves the invariant. -/
theorem fold_stepNeighbor_inv (s e : Location) (current : PathNode)
    (closed : List PathNode) :
    ∀ (ns : List Location), (∀ n ∈ ns, onGrid s e n) →
    ∀ opn, SegInv s e opn closed →
      SegInv s e (ns.foldl (stepNeighbor e current closed) opn) closed
  | [], _, opn, h => h
  | n :: ns, hns, opn, h => by
    rw [List.foldl_cons]
    exact fold_stepNeighbor_inv s e current closed ns
      (fun m hm => hns m (List.mem_cons_of_mem _ hm)) _
      (stepNeighbor_inv s e current closed opn n (hns n (List.mem_cons_self _ _)) h)

/-- Lattice index bound in latitude direction (`segFuel`'s first factor). -/
def Mlat (s e : Location) : ℤ := ⌈|e.lat - s.lat| * 100⌉ + 1

/-- Lattice index bound in longitude direction. -/
def Mlng (s e : Location) : ℤ := ⌈|e.lng - s.lng| * 100⌉ + 1

theorem segFuel_as_M (s e : Location) :
    segFuel s e = (2 * (Mlat s e).toNat + 1) * (2 * (Mlng s e).toNat + 1) + 1 := rfl

/-- The integer lattice index of a grid location, recovered by rounding. -/
def gridIdx (s loc : Location) : ℤ × ℤ :=
  (round ((loc.lat - s.lat) * 100), round ((loc.lng - s.lng) * 100))

/-- One coordinate of the lattice index: the rounding recovers `k`, and
`k` is bounded by the ceiling bound. -/
theorem grid_coord_idx (sb eb x : ℝ) (k : ℤ) (hx : x = sb + k / 100)
    (hlo : min sb eb - 0.01 ≤ x) (hhi : x ≤ max sb eb + 0.01) :
    round ((x - sb) * 100) = k ∧
    -(⌈|eb - sb| * 100⌉ + 1) ≤ k ∧ k ≤ ⌈|eb - sb| * 100⌉ + 1 := by
  have hxk : (x - sb) * 100 = (k : ℝ) := by
    rw [hx]
    ring
  refine ⟨by rw [hxk]; exact round_intCast k, ?_, ?_⟩
  · have hmin : -|eb - sb| ≤ min sb eb - sb := by
      rcases le_total sb eb with h | h
      · rw [min_eq_left h]
        simp [abs_nonneg]
      · rw [min_eq_right h]
        have : |eb - sb| = sb - eb := by
          rw [abs_of_nonpos (by linarith)]
          ring
        linarith
    have hck := Int.le_ceil (|eb - sb| * 100)
    have : -((⌈|eb - sb| * 100⌉ : ℝ) + 1) ≤ (k : ℝ) := by
      rw [← hxk]
      nlinarith
    exact_mod_cast this
  · have hmax : max sb eb - sb ≤ |eb - sb| := by
      rcases le_total sb eb with h | h
      · rw [max_eq_right h, abs_of_nonneg (by linarith)]
      · rw [max_eq_left h]
        simp [abs_nonneg]
    have hck := Int.le_ceil (|eb - sb| * 100)
    have : (k : ℝ) ≤ (⌈|eb - sb| * 100⌉ : ℝ) + 1 := by
      rw [← hxk]
      nlinarith
    exact_mod_cast this

/-- Pairwise-distinct closed nodes on the lattice are no more numerous
than the lattice itself. -/
theorem closed_length_le (s e : Location) (closed : List PathNode)
    (hg : ∀ n ∈ closed, onGrid s e n.loc)
    (hnd : closed.Pairwise (fun a b => a.loc ≠ b.loc)) :
    closed.length ≤ (2 * (Mlat s e).toNat + 1) * (2 * (Mlng s e).toNat + 1) := by
  have hMlat : 0 ≤ Mlat s e := by
    have := Int.ceil_nonneg (by positivity : (0 : ℝ) ≤ |e.lat - s.lat| * 100)
    unfold Mlat
    omega
  have hMlng : 0 ≤ Mlng s e := by
    have := Int.ceil_nonneg (by positivity : (0 : ℝ) ≤ |e.lng - s.lng| * 100)
    unfold Mlng
    omega
  set S : Finset (ℤ × ℤ) :=
    Finset.Icc (-(Mlat s e)) (Mlat s e) ×ˢ Finset.Icc (-(Mlng s e)) (Mlng s e) with hS
  have hmapmem : ∀ n ∈ closed, gridIdx s n.loc ∈ S := by
    intro n hn
    obtain ⟨⟨k, hk⟩, hlo, hhi, ⟨l, hl⟩, hlo2, hhi2⟩ := hg n hn
    obtain ⟨hr1, hb1, hb1'⟩ := grid_coord_idx s.lat e.lat n.loc.lat k hk hlo hhi
    obtain ⟨hr2, hb2, hb2'⟩ := grid_coord_idx s.lng e.lng n.loc.lng l hl hlo2 hhi2
    rw [hS]
    rw [Finset.mem_product]
    constructor
    · rw [Finset.mem_Icc]
      rw [show (gridIdx s n.loc).1 = round ((n.loc.lat - s.lat) * 100) from rfl, hr1]
      exact ⟨by unfold Mlat; omega, by unfold Mlat; omega⟩
    · rw [Finset.mem_Icc]
      rw [show (gridIdx s n.loc).2 = round ((n.loc.lng - s.lng) * 100) from rfl, hr2]
      exact ⟨by unfold Mlng; omega, by unfold Mlng; omega⟩
  have hnd' : closed.Pairwise (fun a b => gridIdx s a.loc ≠ gridIdx s b.loc) := by
    refine hnd.imp_of_mem ?_
    intro a b ha hb hab
    obtain ⟨⟨ka, hka⟩, hloa, hhia, ⟨la, hla⟩, hloa2, hhia2⟩ := hg a ha
    obtain ⟨⟨kb, hkb⟩, hlob, hhib, ⟨lb, hlb⟩, hlob2, hhib2⟩ := hg b hb
    obtain ⟨hra, -, -⟩ := grid_coord_idx s.lat e.lat a.loc.lat ka hka hloa hhia
    obtain ⟨hra2, -, -⟩ := grid_coord_idx s.lng e.lng a.loc.lng la hla hloa2 hhia2
    obtain ⟨hrb, -, -⟩ := grid_coord_idx s.lat e.lat b.loc.lat kb hkb hlob hhib
    obtain ⟨hrb2, -, -⟩ := grid_coord_idx s.lng e.lng b.loc.lng lb hlb hlob2 hhib2
    intro he
    apply hab
    have h1 : ka = kb := by
      have := congrArg Prod.fst he
      rw [show (gridIdx s a.loc).1 = round ((a.loc.lat - s.lat) * 100) from rfl,
        show (gridIdx s b.loc).1 = round ((b.loc.lat - s.lat) * 100) from rfl,
        hra, hrb] at this
      exact this
    have h2 : la = lb := by
      have := congrArg Prod.snd he
      rw [show (gridIdx s a.loc).2 = round ((a.loc.lng - s.lng) * 100) from rfl,
        show (gridIdx s b.loc).2 = round ((b.loc.lng - s.lng) * 100) from rfl,
        hra2, hrb2] at this
      exact this
    exact Location.ext (by rw [hka, hkb, h1]) (by rw [hla, hlb, h2])
  have hinj : (closed.map (fun n => gridIdx s n.loc)).Nodup :=
    List.pairwise_map.mpr hnd'
  have h1 : (closed.map (fun n => gridIdx s n.loc)).toFinset.card ≤ S.card := by
    apply Finset.card_le_card
    intro x hx
    rw [List.mem_toFinset] at hx
    obtain ⟨n, hn, rfl⟩ := List.mem_map.mp hx
    exact hmapmem n hn
  have h2 : (closed.map (fun n => gridIdx s n.loc)).toFinset.card = closed.length := by
    rw [List.toFinset_card_of_nodup hinj, List.length_map]
  have h3 : S.card = (2 * (Mlat s e).toNat + 1) * (2 * (Mlng s e).toNat + 1) := by
    rw [hS, Finset.card_product, Int.card_Icc, Int.card_Icc]
    have e1 : (Mlat s e + 1 - -(Mlat s e)).toNat = 2 * (Mlat s e).toNat + 1 := by omega
    have e2 : (Mlng s e + 1 - -(Mlng s e)).toNat = 2 * (Mlng s e).toNat + 1 := by omega
    rw [e1, e2]
  omega

/-- The segment loop always succeeds within the `segFuel` bound: each
iteration either breaks (goal accepted, or fallback on empty open set) or
closes one more distinct lattice point, and the lattice is finite. -/
theorem segLoop_some (s e : Location) :
    ∀ (fuel : ℕ) (opn closed : List PathNode), SegInv s e opn closed →
      opn ≠ [] →
      (2 * (Mlat s e).toNat + 1) * (2 * (Mlng s e).toNat + 1) + 1 ≤
        closed.length + fuel →
      ∃ locs dist, segLoop s e fuel opn closed = some (locs, dist) ∧ locs ≠ [] := by
  intro fuel
  induction fuel with
  | zero =>
    intro opn closed hinv hne hfuel
    exfalso
    have := closed_length_le s e closed hinv.cg hinv.cnodup
    omega
  | succ fuel ih =>
    intro opn closed hinv hne hfuel
    have hinvs := hinv.sort
    cases hsort : sortByF opn with
    | nil =>
      exfalso
      have hlen : opn.length = 0 := by
        have := congrArg List.length hsort
        rw [show (sortByF opn).length = opn.length from List.length_mergeSort opn] at this
        simpa using this
      exact hne (List.length_eq_zero.mp hlen)
    | cons current rest =>
      rw [hsort] at hinvs
      simp only [segLoop, hsort]
      by_cases hacc : haversineDist current.loc e < 0.1
      · rw [if_pos hacc]
        exact ⟨current.walk, current.g, rfl, current.walk_ne_nil⟩
      · rw [if_neg hacc]
        have hcur : onGrid s e current.loc := hinvs.og _ (List.mem_cons_self _ _)
        obtain ⟨hhead, htail⟩ := List.pairwise_cons.mp hinvs.onodup
        have hinv2 : SegInv s e rest (closed ++ [current]) := by
          refine ⟨?_, ?_, ?_, htail, ?_⟩
          · intro n hn
            exact hinvs.og n (List.mem_cons_of_mem _ hn)
          · intro n hn
            rcases List.mem_append.mp hn with h1 | h1
            · exact hinvs.cg n h1
            · rw [List.mem_singleton.mp h1]
              exact hcur
          · intro x hx c hc
            rcases List.mem_append.mp hc with h1 | h1
            · exact hinvs.oc x (List.mem_cons_of_mem _ hx) c h1
            · rw [List.mem_singleton.mp h1]
              exact fun heq => (hhead x hx) heq.symm
          · rw [List.pairwise_append]
            refine ⟨hinvs.cnodup, List.pairwise_singleton _ _, ?_⟩
            intro c hc b hb
            rw [List.mem_singleton.mp hb]
            exact fun heq =>
              (hinvs.oc current (List.mem_cons_self _ _) c hc) heq.symm
        have hinv3 := fold_stepNeighbor_inv s e current (closed ++ [current])
          (generateNeighbors current.loc e) (neighbor_onGrid s e current.loc hcur)
          rest hinv2
        cases hopen : (generateNeighbors current.loc e).foldl
            (stepNeighbor e current (closed ++ [current])) rest with
        | nil =>
          exact ⟨_, _, rfl, by simp⟩
        | cons n ns =>
          rw [hopen] at hinv3
          refine ih (n :: ns) (closed ++ [current]) hinv3 (by simp) ?_
          rw [List.length_append]
          simp only [List.length_singleton]
          omega

/-- The invariant holds at segment start. -/
theorem segInv_init (a b : Location) : SegInv a b [segStartNode a b] [] := by
  refine ⟨?_, by simp, by simp, List.pairwise_singleton _ _, List.Pairwise.nil⟩
  intro n hn
  rw [List.mem_singleton.mp hn]
  show onGrid a b a
  refine ⟨⟨0, by norm_num⟩, ?_, ?_, ⟨0, by norm_num⟩, ?_, ?_⟩
  · have := min_le_left a.lat b.lat
    linarith
  · have := le_max_left a.lat b.lat
    linarith
  · have := min_le_left a.lng b.lng
    linarith
  · have := le_max_left a.lng b.lng
    linarith

/-- Every chain of segments succeeds, and the accumulated path is
non-empty as soon as there is at least one segment. -/
theorem runSegments_some :
    ∀ (pts : List Location) (acc : List Location × ℝ),
      ∃ res, runSegments pts acc = some res ∧
        (acc.1 ≠ [] → res.1 ≠ []) ∧ (2 ≤ pts.length → res.1 ≠ [])
  | [], acc => ⟨acc, rfl, fun h => h, by simp⟩
  | [x], acc => ⟨acc, rfl, fun h => h, by simp⟩
  | a :: b :: rest, (path, dist) => by
    obtain ⟨locs, d, hseg, hlocs⟩ := segLoop_some a b (segFuel a b)
      [segStartNode a b] [] (segInv_init a b) (by simp)
      (by rw [segFuel_as_M]; omega)
    obtain ⟨res, hrun, himp1, himp2⟩ :=
      runSegments_some (b :: rest) (path ++ locs, dist + d)
    refine ⟨res, ?_, fun _ => ?_, fun _ => ?_⟩
    · rw [runSegments, hseg]
      exact hrun
    · exact himp1 (by simp [hlocs])
    · exact himp1 (by simp [hlocs])

/-- C3: for every start/goal pair and waypoint list, `astarPathfinding`
terminates within the explicit `segFuel` iteration bound per segment and
returns a non-empty path; for `start = goal = (0,0)` the path is `[(0,0)]`
with `totalDistance = 0`. -/
theorem astarPathfinding_total :
    (∀ (start goal : Location) (waypoints : List Location),
      ∃ path dist, astarPathfinding start goal waypoints = some (path, dist) ∧
        path ≠ []) ∧
    astarPathfinding ⟨0, 0⟩ ⟨0, 0⟩ [] = some ([⟨0, 0⟩], 0) := by
  constructor
  · intro start goal ws
    obtain ⟨res, hrun, -, h2⟩ := runSegments_some (start :: (ws ++ [goal])) ([], 0)
    refine ⟨res.1.reverse, res.2, ?_, ?_⟩
    · rw [astarPathfinding, hrun]
      rfl
    · have hne := h2 (by simp)
      simpa using hne
  · exact astar_zero_eval

/-- C4 (refuting evaluation): on `start = (0,0)`, `goal = (0.001, 0)` with
waypoint `(0.0005, 0)`, every segment accepts immediately, yet the single
global reversal returns the path `[(0.0005,0), (0,0)]`: its head is the
waypoint rather than `start`, and its last coordinate `(0,0)` is ≈0.111 km
from the goal — outside the 0.1 km acceptance tolerance — so the path is
not ordered in travel direction. -/
theorem astarPathfinding_path_misordered :
    astarPathfinding ⟨0, 0⟩ ⟨0.001, 0⟩ [⟨0.0005, 0⟩] =
      some ([⟨0.0005, 0⟩, ⟨0, 0⟩], 0) ∧
    ([⟨0.0005, 0⟩, ⟨0, 0⟩] : List Location).head? ≠ some ⟨0, 0⟩ ∧
    ([⟨0.0005, 0⟩, ⟨0, 0⟩] : List Location).getLast? = some ⟨0, 0⟩ ∧
    ¬ haversineDist ⟨0, 0⟩ ⟨0.001, 0⟩ < 0.1 := by
  refine ⟨astar_waypoint_eval, ?_, by simp, hav_0_to_goal⟩
  intro h
  simp only [List.head?_cons, Option.some.injEq, Location.mk.injEq] at h
  exact absurd h.1 (by norm_num)

end

